import Mathlib

/-!
Verification of the QueryCraft core against its specification.

The embedding models the five core responsibilities of the repository:

* Relationship Inferencer — `getConnections`
  (`src/app/components/DraggableTableConnectionGraph.tsx`, lines 74–89);
* Graph Layout Engine — `getInitialPositions` (same file, lines 56–72);
* Statement Executor — `executeQuery` (`src/app/lib/sqlEngine.ts`, lines 49–93);
* Schema Reflector — `getSchema` (same file, lines 96–139);
* Engine Session — `initDatabase`, `importDatabase`, `clearDatabase`
  (same file, lines 27–46, 148–154, 157–168).

Strings are embedded as `List Char`; the JavaScript string operations the
code uses (`trim`, `toUpperCase`, `endsWith`, `startsWith`, `replace` of an
anchored suffix pattern) are defined below, faithful to their ECMAScript
behaviour on the ASCII inputs the program works with.  The embedded SQLite
engine (sql.js) is not part of the repository; where a claim depends on its
behaviour it is either abstracted as a parameter or modelled from the spec,
as marked in the corresponding doc comments.
-/

namespace QueryCraft

/-- Strings are modelled as lists of characters. -/
abbrev Str := List Char

/-- Whitespace as recognised by the ECMAScript `String.prototype.trim`
(the ASCII part, which is all the program's inputs use). -/
def isJsWhitespace (c : Char) : Bool :=
  c = ' ' || c = '\t' || c = '\n' || c = '\r' || c = '\x0b' || c = '\x0c'

/-- ECMAScript `s.trim()`: remove leading and trailing whitespace. -/
def jsTrim (s : Str) : Str :=
  ((s.dropWhile isJsWhitespace).reverse.dropWhile isJsWhitespace).reverse

/-- ECMAScript `s.toUpperCase()` on ASCII strings. -/
def jsToUpper (s : Str) : Str := s.map Char.toUpper

/-- ECMAScript `s.toLowerCase()` on ASCII strings. -/
def jsToLower (s : Str) : Str := s.map Char.toLower

/-- ECMAScript `s.startsWith(p)`. -/
def jsStartsWith (p s : Str) : Bool := List.isPrefixOf p s

/-- ECMAScript `s.endsWith(p)`. -/
def jsEndsWith (p s : Str) : Bool := List.isSuffixOf p s

/-- ECMAScript `s.replace(/_id$/i, "")`: if the string ends,
case-insensitively, with `_id`, drop those three characters, else return
the string unchanged.  (In `getConnections` this is only reached when the
name passed the case-sensitive `endsWith("_id")` guard.) -/
def replaceIdSuffix (s : Str) : Str :=
  if jsEndsWith ("_id".toList) (jsToLower s) then s.take (s.length - 3) else s

/-- Column metadata as exposed to components (`SchemaColumn` in
`sqlEngine.ts` and `DraggableTableConnectionGraph.tsx`). -/
structure SchemaColumn where
  name : Str
  type : Str
  notnull : Bool
  pk : Bool
deriving DecidableEq, Repr

/-- Table metadata (`SchemaTable` in the source). -/
structure SchemaTable where
  name : Str
  columns : List SchemaColumn
deriving DecidableEq, Repr

/-- A directed relationship edge (`{ from, to }` in `getConnections`). -/
structure Connection where
  «from» : Str
  «to» : Str
deriving DecidableEq, Repr

/-- `tableMap.has(n)` for the map built by `schema.forEach((t) =>
tableMap.set(t.name, t))`: key membership is name membership in the
schema. -/
def hasTable (schema : List SchemaTable) (n : Str) : Bool :=
  schema.any (fun t => t.name == n)

/-- Relationship Inferencer: `getConnections`
(`DraggableTableConnectionGraph.tsx`, lines 74–89).  For each table and
each column, if the column name ends (case-sensitively) with `_id`, strip
the suffix, try the bare root, root+`s`, root+`es` in order, and push an
edge to the first existing table name; the nested `forEach` with `push` is
embedded as nested left folds over an accumulator. -/
def getConnections (schema : List SchemaTable) : List Connection :=
  schema.foldl (fun acc t =>
    t.columns.foldl (fun acc c =>
      if jsEndsWith ("_id".toList) c.name then
        let targetName := replaceIdSuffix c.name
        let possible := [targetName, targetName ++ ("s".toList),
          targetName ++ ("es".toList)]
        match possible.find? (fun n => hasTable schema n) with
        | some found => acc ++ [⟨t.name, found⟩]
        | none => acc
      else acc) acc) []

/-- The per-column inference as the spec words it, with the amendment that
the `_id` suffix test is case-sensitive (mirroring the source's
`c.name.endsWith("_id")`). -/
def inferEdge (schema : List SchemaTable) (t : SchemaTable)
    (c : SchemaColumn) : Option Connection :=
  if jsEndsWith ("_id".toList) c.name then
    let root := c.name.take (c.name.length - 3)
    ([root, root ++ ("s".toList), root ++ ("es".toList)].find?
      (fun n => hasTable schema n)).map (fun found => ⟨t.name, found⟩)
  else none

/-- The inferencer as the spec words it (amended to a case-sensitive
suffix test): one optional edge per column, in schema order, duplicates
kept. -/
def connectionsSpec (schema : List SchemaTable) : List Connection :=
  schema.flatMap (fun t => t.columns.filterMap (inferEdge schema t))

/-- The claim's per-column inference, verbatim: the `_id` suffix test is
case-insensitive, the suffix is stripped, and the bare root, root+`s`,
root+`es` are tried in order against the existing table names. -/
def inferEdgeClaim (schema : List SchemaTable) (t : SchemaTable)
    (c : SchemaColumn) : Option Connection :=
  if jsEndsWith ("_id".toList) (jsToLower c.name) then
    let root := c.name.take (c.name.length - 3)
    ([root, root ++ ("s".toList), root ++ ("es".toList)].find?
      (fun n => hasTable schema n)).map (fun found => ⟨t.name, found⟩)
  else none

/-- The inferencer exactly as claim C1 states it (case-insensitive suffix
test). -/
def connectionsClaim (schema : List SchemaTable) : List Connection :=
  schema.flatMap (fun t => t.columns.filterMap (inferEdgeClaim schema t))

/-- Shorthand for building a column that is not a key (the inference only
looks at names). -/
def plainCol (n : String) : SchemaColumn := ⟨n.toList, "INTEGER".toList, false, false⟩

/-- Shorthand for building a table from a name and column names. -/
def mkTable (n : String) (cols : List String) : SchemaTable :=
  ⟨n.toList, cols.map plainCol⟩

/-- Schema on which the claimed case-insensitive suffix test disagrees
with the source: table `Users` and a table `Orders` whose column `User_Id`
ends with `_id` only up to case. -/
def schemaCaseCX : List SchemaTable :=
  [mkTable "Users" ["id"], mkTable "Orders" ["id", "User_Id"]]

/-- Schema of the claim's first example: `orders(user_id)` and `users`. -/
def schemaOrdersUsers : List SchemaTable :=
  [mkTable "users" ["id"], mkTable "orders" ["id", "user_id"]]

/-- Schema of the claim's second example: `order_items(product_id)` and
`products`. -/
def schemaOrderItems : List SchemaTable :=
  [mkTable "products" ["id"], mkTable "order_items" ["id", "product_id"]]

/-- Schema of the claim's third example: a column `foo_id` with no table
`foo`, `foos` or `fooes`. -/
def schemaFoo : List SchemaTable :=
  [mkTable "users" ["id"], mkTable "bar" ["foo_id"]]

/-- Schema with two `_id` columns resolving to the same target, to exhibit
that duplicate edges are kept. -/
def schemaDup : List SchemaTable :=
  [mkTable "users" ["id"], mkTable "t" ["user_id", "users_id"]]

/-! ### Graph Layout Engine (`getInitialPositions`, lines 56–72) -/

/-- A node position (`Position` in the source). -/
structure Position where
  x : ℚ
  y : ℚ
deriving DecidableEq, Repr

/-- `Math.ceil(Math.sqrt(n))` for a natural number `n`: the least natural
number whose square is at least `n`. -/
def ceilSqrt (n : ℕ) : ℕ :=
  if Nat.sqrt n * Nat.sqrt n = n then Nat.sqrt n else Nat.sqrt n + 1

/-- `const cols = Math.ceil(Math.sqrt(schema.length))`. -/
def gridCols (n : ℕ) : ℕ := ceilSqrt n

/-- `const rows = Math.ceil(schema.length / cols)`. -/
def gridRows (n : ℕ) : ℕ := ⌈(n : ℚ) / (gridCols n : ℚ)⌉₊

/-- The anchor the layout assigns to the node at schema index `i`
(`col * cellWidth + cellWidth / 2 - 100`, likewise for `y`). -/
def cellAnchor (cols : ℕ) (cellWidth cellHeight : ℚ) (i : ℕ) : Position :=
  ⟨((i % cols : ℕ) : ℚ) * cellWidth + cellWidth / 2 - 100,
   ((i / cols : ℕ) : ℚ) * cellHeight + cellHeight / 2 - 100⟩

/-- Graph Layout Engine: `getInitialPositions`
(`DraggableTableConnectionGraph.tsx`, lines 56–72).  The returned record
keyed by table name is embedded as an association list in insertion
order. -/
def getInitialPositions (schema : List SchemaTable) (width height : ℚ) :
    List (Str × Position) :=
  let cols := gridCols schema.length
  let rows := gridRows schema.length
  let cellWidth := width / (cols : ℚ)
  let cellHeight := height / (rows : ℚ)
  schema.enum.map (fun p => (p.2.name, cellAnchor cols cellWidth cellHeight p.1))

/-- The node card's width is fixed at `200px` by the node style
(`width: "200px"`, line 124); the layout's `100` offset is half of this
nominal 200×200 footprint. -/
def nodeFootprint : ℚ := 200

/-! ### Statement Executor and Engine Session (`sqlEngine.ts`) -/

/-- A result cell value, the closed sum the spec requires at the engine
boundary. -/
inductive Value where
  | text (s : Str)
  | num (q : ℚ)
  | boolean (b : Bool)
  | null
deriving DecidableEq, Repr

/-- One result set as returned by the engine's `exec`. -/
structure ResultSet where
  columns : List Str
  values : List (List Value)
deriving DecidableEq, Repr

/-- `QueryResult` (`sqlEngine.ts`, lines 6–12).  `executionTime` is the
wall-clock difference of the two `performance.now()` readings, in
milliseconds, modelled over `ℚ`. -/
structure QueryResult where
  columns : List Str
  values : List (List Value)
  rowsAffected : Option ℕ
  executionTime : ℚ
deriving DecidableEq, Repr

/-- The embedded engine interface the executor calls (sql.js is not part
of the repository, so `exec`, `run` and `getRowsModified` are abstract
parameters; a concrete model is instantiated where a claim needs one). -/
structure Engine (Db : Type) where
  exec : Db → Str → Except Str (List ResultSet)
  run : Db → Str → Except Str Db
  getRowsModified : Db → ℕ

/-- Symbolic wall-clock durations of the steps the executor performs, in
source order: the optional lazy `initDatabase()` (line 51), `sql.trim()`
(line 57), the keyword comparison (line 60), `db.exec` (line 61) and
`db.run` (line 80).  `performance.now()` readings are modelled by
threading a clock that advances by these amounts. -/
structure Durations where
  trim : ℚ
  classify : ℚ
  exec : ℚ
  run : ℚ
  init : ℚ
deriving DecidableEq, Repr

/-- The keyword of the projection test (`'SELECT'`, line 60). -/
def selectKeyword : Str := "SELECT".toList

/-- The statement classification of line 60:
`trimmedSql.toUpperCase().startsWith('SELECT')`. -/
def isSelectStmt (sql : Str) : Bool :=
  jsStartsWith selectKeyword (jsToUpper (jsTrim sql))

/-- The catch clause of lines 90–92:
`new Error(error.message || 'Query execution failed')`. -/
def wrapError (e : Str) : Str :=
  if e.isEmpty then "Query execution failed".toList else e

/-- Statement Executor on a live database handle: `executeQuery`
(`sqlEngine.ts`, lines 54–92).  `startTime` is the `performance.now()`
reading of line 54; the clock then advances by the duration of each step
in source order, and `executionTime` is `endTime - startTime` exactly as
in the source (line 62 resp. line 81).  The lazy `initDatabase()` of
lines 50–52 is modelled by `executeQueryFull` below. -/
def executeQuery {Db : Type} (E : Engine Db) (d : Durations) (db : Db)
    (startTime : ℚ) (sql : Str) : Except Str (Db × QueryResult) :=
  let trimmedSql := jsTrim sql
  let t1 := startTime + d.trim
  let t2 := t1 + d.classify
  if jsStartsWith selectKeyword (jsToUpper trimmedSql) then
    match E.exec db trimmedSql with
    | .error e => .error (wrapError e)
    | .ok results =>
      let endTime := t2 + d.exec
      match results with
      | [] => .ok (db, ⟨[], [], none, endTime - startTime⟩)
      | r :: _ => .ok (db, ⟨r.columns, r.values, none, endTime - startTime⟩)
  else
    match E.run db trimmedSql with
    | .error e => .error (wrapError e)
    | .ok db2 =>
      let endTime := t2 + d.run
      .ok (db2, ⟨["Status".toList],
        [[Value.text ("Query executed successfully".toList)]],
        some (E.getRowsModified db2), endTime - startTime⟩)

/-- The module-level engine state of `sqlEngine.ts` (lines 1–4): the
loaded runtime handle `SQL` and the live database handle `db`, both
initially null. -/
structure EngineState (Rt Db : Type) where
  SQL : Option Rt
  db : Option Db
deriving DecidableEq, Repr

/-- Ghost instrumentation recording the observable effects of a
bootstrap. -/
inductive InitEvent where
  | runtimeLoaded
  | dbCreated
  | seeded
deriving DecidableEq, Repr

/-- Engine Session bootstrap: `initDatabase` (`sqlEngine.ts`, lines
27–46).  `loadRuntime` models `initSqlJs` (which may fail), `newDb`
models `new SQL.Database()`, and `seed` models `loadSampleData` (whose
internal failure is swallowed by its own catch, lines 275–279, so it is a
total function).  Returns the new module state, the propagated error if
any, and the list of effects performed. -/
def initDatabase {Rt Db : Type} (loadRuntime : Except Str Rt)
    (newDb : Rt → Db) (seed : Db → Db) (s : EngineState Rt Db) :
    EngineState Rt Db × Option Str × List InitEvent :=
  if s.SQL.isSome then (s, none, [])
  else
    match loadRuntime with
    | .error e => (s, some e, [])
    | .ok r => (⟨some r, some (seed (newDb r))⟩, none,
        [.runtimeLoaded, .dbCreated, .seeded])

/-- Engine Session snapshot import: `importDatabase` (`sqlEngine.ts`,
lines 148–154).  `deserialize` models `new SQL.Database(data)`, which
throws on malformed bytes; the module state is returned alongside the
propagated error, mirroring that a thrown exception leaves the module
variables as they were at the point of the throw. -/
def importDatabase {Rt Db : Type} (loadRuntime : Except Str Rt)
    (newDb : Rt → Db) (seed : Db → Db)
    (deserialize : List ℕ → Except Str Db) (s : EngineState Rt Db)
    (data : List ℕ) : EngineState Rt Db × Option Str :=
  let step := if s.SQL.isNone then
      (let p := initDatabase loadRuntime newDb seed s
       (p.1, p.2.1))
    else (s, none)
  match step with
  | (s1, some e) => (s1, some e)
  | (s1, none) =>
    match s1.SQL with
    | none => (s1, some ("TypeError: SQL is null".toList))
    | some _ =>
      match deserialize data with
      | .error e => (s1, some e)
      | .ok d => (⟨s1.SQL, some d⟩, none)

/-- Statement Executor including the lazy bootstrap: `executeQuery`
(`sqlEngine.ts`, lines 49–93).  Lines 50–52 run `initDatabase()` when the
database handle is null; `performance.now()` of line 54 is therefore read
only after that bootstrap, so the clock has already advanced by `d.init`
when `startTime` is taken. -/
def executeQueryFull {Rt Db : Type} (loadRuntime : Except Str Rt)
    (newDb : Rt → Db) (seed : Db → Db) (E : Engine Db) (d : Durations)
    (s : EngineState Rt Db) (t0 : ℚ) (sql : Str) :
    Except Str (EngineState Rt Db × QueryResult) :=
  let p := if s.db.isNone then initDatabase loadRuntime newDb seed s
           else (s, none, [])
  match p.2.1 with
  | some e => .error e
  | none =>
    let startTime := t0 + (if s.db.isNone then d.init else 0)
    match p.1.db with
    | none => .error ("TypeError: db is null".toList)
    | some db =>
      match executeQuery E d db startTime sql with
      | .error e => .error e
      | .ok (db2, r) => .ok (⟨p.1.SQL, some db2⟩, r)

/-- A trivial engine over a unit database: `exec` yields no result set,
`run` succeeds without effect; used to instantiate the abstract engine in
witnesses. -/
def unitEngine : Engine Unit :=
  ⟨fun _ _ => .ok [], fun db _ => .ok db, fun _ => 0⟩

/-- Zero durations, for scenarios where timing is irrelevant. -/
def d0 : Durations := ⟨0, 0, 0, 0, 0⟩

/-- Concrete durations exhibiting the timing-scope counterexample. -/
def dCX : Durations := ⟨1, 2, 5, 7, 50⟩

/-- Extract the `QueryResult` of a successful full execution. -/
def okResult {Rt Db : Type}
    (x : Except Str (EngineState Rt Db × QueryResult)) : Option QueryResult :=
  match x with
  | .ok p => some p.2
  | .error _ => none

/-- Extract the `QueryResult` of a successful ready-database execution. -/
def okPair {Db : Type} (x : Except Str (Db × QueryResult)) :
    Option QueryResult :=
  match x with
  | .ok p => some p.2
  | .error _ => none

/-- Modelled from the spec: a minimal state of the embedded SQLite engine
(sql.js), which is not part of the repository — a list of user tables
with their row counts, plus the affected-row counter behind
`db.getRowsModified()`. -/
structure MiniDb where
  tables : List (Str × ℕ)
  changes : ℕ
deriving DecidableEq, Repr

/-- Scan to the first occurrence of `kw` and return what follows it. -/
def dropThroughKeyword (kw : Str) : Str → Option Str
  | [] => none
  | c :: rest =>
    if List.isPrefixOf kw (c :: rest) then some ((c :: rest).drop kw.length)
    else dropThroughKeyword kw rest

/-- A bare identifier: characters up to the first `(` or space. -/
def takeTableName (s : Str) : Str :=
  s.takeWhile (fun c => !(c = '(' || c = ' '))

/-- Modelled from the spec: `db.run` of the embedded SQLite engine,
restricted to the statement shapes of the spec's mutation-count scenario.
`CREATE TABLE` registers an empty table and leaves the affected-row
counter alone; `INSERT INTO t ... VALUES (...),(...),...` appends the
listed tuples and sets the counter to the number of inserted rows. -/
def miniRun (db : MiniDb) (sql : Str) : Except Str MiniDb :=
  if List.isPrefixOf ("CREATE TABLE ".toList) sql then
    let name := takeTableName (sql.drop 13)
    .ok ⟨db.tables ++ [(name, 0)], db.changes⟩
  else if List.isPrefixOf ("INSERT INTO ".toList) sql then
    let name := takeTableName (sql.drop 12)
    if db.tables.any (fun p => p.1 == name) then
      match dropThroughKeyword ("VALUES".toList) sql with
      | some rest =>
        let k := rest.count '('
        .ok ⟨db.tables.map (fun p => if p.1 == name then (p.1, p.2 + k) else p), k⟩
      | none => .error ("syntax error".toList)
    else .error ("no such table".toList)
  else .error ("unsupported statement".toList)

/-- Modelled from the spec: the embedded engine instantiated with the
minimal SQLite model (projections are outside the modelled fragment). -/
def miniEngine : Engine MiniDb :=
  ⟨fun _ _ => .error ("not modelled".toList), miniRun, MiniDb.changes⟩

/-- The empty database of the minimal engine model. -/
def emptyMiniDb : MiniDb := ⟨[], 0⟩

/-- The spec's mutation-count scenario: execute
`CREATE TABLE t(x INTEGER)` and then `INSERT INTO t(x) VALUES (1),(2),(3)`
through the Statement Executor, and report the second result's
`rowsAffected`. -/
def mutationScenario : Option (Option ℕ) :=
  match executeQuery miniEngine d0 emptyMiniDb 0
      ("CREATE TABLE t(x INTEGER)".toList) with
  | .ok (db1, _) =>
    match executeQuery miniEngine d0 db1 0
        ("INSERT INTO t(x) VALUES (1),(2),(3)".toList) with
    | .ok (_, r) => some r.rowsAffected
    | .error _ => none
  | .error _ => none

/-! ### Schema Reflector (`getSchema`, lines 96–139) and reset
(`clearDatabase`, lines 157–168) -/

/-- A row of `PRAGMA table_info`: `(cid, name, type, notnull, dflt_value,
pk)`; `getSchema` reads indices 1, 2, 3 and 5 (lines 120–125). -/
structure ColInfo where
  cid : Nat
  name : Str
  type : Str
  notnull : Nat
  dflt : Option Str
  pk : Nat
deriving DecidableEq, Repr

/-- Modelled from the spec: the engine-side state of one live database as
the Schema Reflector and `clearDatabase` observe it — for each table (user
or engine-internal), in creation order, its name and the outcome of
`PRAGMA table_info` on it, where `none` models the engine throwing
mid-traversal; `catalogFails` models the catalog query itself throwing;
`stuck` lists the tables whose `DROP TABLE` statement throws. -/
structure ReflDb where
  catalog : List (Str × Option (List ColInfo))
  catalogFails : Bool
  stuck : List Str
deriving DecidableEq, Repr

/-- Modelled from the spec: SQLite's `name LIKE 'sqlite_%'` — `LIKE` is
case-insensitive for ASCII and `_` matches any single character, so the
pattern matches exactly the names whose lowercase form starts with
`sqlite` and that have at least seven characters. -/
def matchesSqlitePattern (n : Str) : Bool :=
  jsStartsWith ("sqlite".toList) (jsToLower n) && decide (7 <= n.length)

/-- Lexicographic comparison on the embedded strings by code point
(SQLite's default BINARY collation for the `ORDER BY name` of the catalog
query). -/
def lexLe : Str → Str → Bool
  | [], _ => true
  | _ :: _, [] => false
  | a :: as, b :: bs =>
    if a.toNat < b.toNat then true
    else if b.toNat < a.toNat then false
    else lexLe as bs

/-- Modelled from the spec: the engine's answer to the reflector's catalog
query (lines 101–105) — the table names that do not match
`'sqlite_%'`, ordered by name. -/
def userTableNames (d : ReflDb) : List Str :=
  ((d.catalog.map Prod.fst).filter (fun n => !matchesSqlitePattern n)).mergeSort lexLe

/-- Modelled from the spec: `db.exec` of `PRAGMA table_info(t)` — the
stored outcome for a known table; a table absent from the catalog yields
no rows (the code then skips it via the `columnsResult.length > 0` guard
of line 118). -/
def pragmaTableInfo (d : ReflDb) (n : Str) : Option (List ColInfo) :=
  match d.catalog.lookup n with
  | some r => r
  | none => some []

/-- The column conversion of lines 120–125. -/
def toSchemaColumn (c : ColInfo) : SchemaColumn :=
  ⟨c.name, c.type, c.notnull == 1, c.pk == 1⟩

/-- The traversal of lines 112–132: fetch each table's columns in order;
a thrown engine error unwinds the whole loop to the catch of line 135
(modelled by propagating `none`); a table with no rows is skipped. -/
def reflectTables (d : ReflDb) : List Str → Option (List SchemaTable)
  | [] => some []
  | n :: rest =>
    match pragmaTableInfo d n with
    | none => none
    | some cols =>
      match reflectTables d rest with
      | none => none
      | some ts =>
        some (if cols.isEmpty then ts else ⟨n, cols.map toSchemaColumn⟩ :: ts)

/-- Schema Reflector: `getSchema` (`sqlEngine.ts`, lines 96–139).
Uninitialized sessions (null `db`) yield the empty list; any engine
failure during the traversal is caught and also yields the empty list. -/
def getSchema (db : Option ReflDb) : List SchemaTable :=
  match db with
  | none => []
  | some d =>
    if d.catalogFails then []
    else
      match reflectTables d (userTableNames d) with
      | none => []
      | some ts => ts

/-- Modelled from the spec: `db.run` of `DROP TABLE IF EXISTS t` —
removes the table from the catalog, or throws when the drop is stuck. -/
def runDrop (d : ReflDb) (n : Str) : Option ReflDb :=
  if n ∈ d.stuck then none
  else some ⟨d.catalog.filter (fun p => !(p.1 == n)), d.catalogFails, d.stuck⟩

/-- One iteration of the `forEach` of lines 161–167: attempt the drop;
on failure (the catch of lines 164–166) keep the database state and
continue; the second component records the attempted table name. -/
def dropStep (acc : ReflDb × List Str) (t : SchemaTable) : ReflDb × List Str :=
  match runDrop acc.1 t.name with
  | some d2 => (d2, acc.2 ++ [t.name])
  | none => (acc.1, acc.2 ++ [t.name])

/-- Engine Session reset: `clearDatabase` (`sqlEngine.ts`, lines
157–168), instrumented with the list of tables a drop was attempted for.
It enumerates the user tables via `getSchema` and drops each; a
per-table failure is caught, logged, and the loop continues. -/
def clearDatabase (db : Option ReflDb) : Option ReflDb × List Str :=
  match db with
  | none => (none, [])
  | some d =>
    let p := (getSchema (some d)).foldl dropStep (d, [])
    (some p.1, p.2)

/-- A catalog whose second table's column fetch fails, for the C6
witness. -/
def reflDbFail : ReflDb :=
  ⟨[("users".toList, some [⟨0, "id".toList, "INTEGER".toList, 0, none, 1⟩]),
    ("orders".toList, none),
    ("sqlite_sequence".toList,
      some [⟨0, "name".toList, "".toList, 0, none, 0⟩])], false, []⟩

/-- Catalog of three tables `a`, `b`, `c` where dropping `b` fails, for
the C8 witness. -/
def reflDbStuck : ReflDb :=
  ⟨[("a".toList, some [⟨0, "id".toList, "INTEGER".toList, 0, none, 1⟩]),
    ("b".toList, some [⟨0, "id".toList, "INTEGER".toList, 0, none, 1⟩]),
    ("c".toList, some [⟨0, "id".toList, "INTEGER".toList, 0, none, 1⟩])],
   false, ["b".toList]⟩

/-! ### Theorems -/

/-- When a name ends with `_id` exactly, the case-insensitive replacement
strips precisely those three characters. -/
theorem replaceIdSuffix_of_endsWith {n : Str}
    (h : jsEndsWith ("_id".toList) n = true) :
    replaceIdSuffix n = n.take (n.length - 3) := by
  unfold jsEndsWith at h
  rcases List.isSuffixOf_iff_suffix.mp h with ⟨pre, rfl⟩
  have hlow : jsEndsWith ("_id".toList) (jsToLower (pre ++ ("_id".toList))) = true := by
    unfold jsToLower jsEndsWith
    rw [List.map_append]
    refine List.isSuffixOf_iff_suffix.mpr ?_
    rw [show List.map Char.toLower ("_id".toList) = "_id".toList from by decide]
    exact List.suffix_append _ _
  unfold replaceIdSuffix
  rw [hlow]
  simp

theorem getConnections_inner (schema : List SchemaTable) (t : SchemaTable) :
    ∀ (cols : List SchemaColumn) (acc : List Connection),
    cols.foldl (fun acc c =>
      if jsEndsWith ("_id".toList) c.name then
        let targetName := replaceIdSuffix c.name
        let possible := [targetName, targetName ++ ("s".toList),
          targetName ++ ("es".toList)]
        match possible.find? (fun n => hasTable schema n) with
        | some found => acc ++ [⟨t.name, found⟩]
        | none => acc
      else acc) acc = acc ++ cols.filterMap (inferEdge schema t) := by
  have key : ∀ (c : SchemaColumn) (acc₀ : List Connection),
      (if jsEndsWith ("_id".toList) c.name then
        let targetName := replaceIdSuffix c.name
        let possible := [targetName, targetName ++ ("s".toList),
          targetName ++ ("es".toList)]
        match possible.find? (fun n => hasTable schema n) with
        | some found => acc₀ ++ [(⟨t.name, found⟩ : Connection)]
        | none => acc₀
      else acc₀) =
      (match inferEdge schema t c with
       | some b => acc₀ ++ [b]
       | none => acc₀) := by
    intro c acc₀
    unfold inferEdge
    by_cases hci : jsEndsWith ("_id".toList) c.name = true
    · rw [replaceIdSuffix_of_endsWith hci]
      simp only [hci, if_true]
      cases hf : ([c.name.take (c.name.length - 3),
          c.name.take (c.name.length - 3) ++ ("s".toList),
          c.name.take (c.name.length - 3) ++ ("es".toList)].find?
          (fun n => hasTable schema n)) with
      | some found => simp [hf]
      | none => simp [hf]
    · simp only [Bool.not_eq_true] at hci
      simp only [hci]
      simp
  intro cols
  induction cols with
  | nil => intro acc; simp
  | cons c rest ih =>
    intro acc
    rw [List.foldl_cons, List.filterMap_cons, key c acc]
    cases h : inferEdge schema t c with
    | some b => rw [ih (acc ++ [b])]; simp
    | none => rw [ih acc]

/-- The source inferencer equals the (amended) spec-worded inferencer. -/
theorem getConnections_eq_spec (schema : List SchemaTable) :
    getConnections schema = connectionsSpec schema := by
  unfold getConnections connectionsSpec
  have outer : ∀ (ts : List SchemaTable) (acc : List Connection),
      ts.foldl (fun acc t =>
        t.columns.foldl (fun acc c =>
          if jsEndsWith ("_id".toList) c.name then
            let targetName := replaceIdSuffix c.name
            let possible := [targetName, targetName ++ ("s".toList),
              targetName ++ ("es".toList)]
            match possible.find? (fun n => hasTable schema n) with
            | some found => acc ++ [⟨t.name, found⟩]
            | none => acc
          else acc) acc) acc =
      acc ++ ts.flatMap (fun t => t.columns.filterMap (inferEdge schema t)) := by
    intro ts
    induction ts with
    | nil => intro acc; simp
    | cons t rest ih =>
      intro acc
      rw [List.foldl_cons, List.flatMap_cons,
        getConnections_inner schema t t.columns acc, ih, List.append_assoc]
  simpa using outer schema []

/-- C1: the relationship inferencer, amended — the `_id` suffix test is
case-sensitive (a column must end with exactly `_id`); for every such
column the suffix is stripped, the bare root, root+`s`, root+`es` are
tried in order, the first exact table-name match yields a directed edge
from the owning table, no match yields no edge, and duplicate edges are
kept; `orders(user_id)`/`users` gives `orders→users`,
`order_items(product_id)`/`products` gives `order_items→products`, and
`foo_id` with no `foo`/`foos`/`fooes` gives no edge. -/
theorem C1_inference_case_sensitive :
    (∀ schema : List SchemaTable, getConnections schema = connectionsSpec schema) ∧
    getConnections schemaOrdersUsers =
      [⟨"orders".toList, "users".toList⟩] ∧
    getConnections schemaOrderItems =
      [⟨"order_items".toList, "products".toList⟩] ∧
    getConnections schemaFoo = [] ∧
    getConnections schemaDup =
      [⟨"t".toList, "users".toList⟩, ⟨"t".toList, "users".toList⟩] :=
  ⟨getConnections_eq_spec, by decide, by decide, by decide, by decide⟩

/-- C1, counterexample to the claim as stated: on the schema with tables
`Users` and `Orders(User_Id)` the claimed case-insensitive suffix test
would emit the edge `Orders→Users`, but the source inferencer emits no
edge, because `endsWith("_id")` is case-sensitive. -/
theorem C1_claim_counterexample :
    connectionsClaim schemaCaseCX =
      [⟨"Orders".toList, "Users".toList⟩] ∧
    getConnections schemaCaseCX = [] ∧
    getConnections schemaCaseCX ≠ connectionsClaim schemaCaseCX := by
  refine ⟨by decide, by decide, by decide⟩

/-- `ceilSqrt` is the ceiling of the real square root. -/
theorem ceilSqrt_eq_ceil_real_sqrt (n : ℕ) :
    ceilSqrt n = ⌈Real.sqrt (n : ℝ)⌉₊ := by
  unfold ceilSqrt
  by_cases hsq : Nat.sqrt n * Nat.sqrt n = n
  · rw [if_pos hsq]
    have hcast : (n : ℝ) = (Nat.sqrt n : ℝ) * (Nat.sqrt n : ℝ) := by
      exact_mod_cast hsq.symm
    rw [hcast, Real.sqrt_mul_self (by positivity), Nat.ceil_natCast]
  · rw [if_neg hsq]
    have hle : Nat.sqrt n ^ 2 ≤ n := Nat.sqrt_le' n
    have hlt : Nat.sqrt n ^ 2 < n :=
      lt_of_le_of_ne hle (fun h => hsq (by rwa [pow_two] at h))
    have hup : n < (Nat.sqrt n + 1) ^ 2 := Nat.lt_succ_sqrt' n
    symm
    refine (Nat.ceil_eq_iff (by simp)).mpr ⟨?_, ?_⟩
    · have h2 : ((Nat.sqrt n : ℝ)) ^ 2 < (n : ℝ) := by
        exact_mod_cast hlt
      simpa using (Real.lt_sqrt (by positivity)).mpr h2
    · refine Real.sqrt_le_iff.mpr ⟨by positivity, ?_⟩
      have : (n : ℝ) ≤ ((Nat.sqrt n + 1 : ℕ) : ℝ) ^ 2 := by
        exact_mod_cast hup.le
      simpa using this

theorem gridCols_pos {n : ℕ} (hn : 1 ≤ n) : 0 < gridCols n := by
  unfold gridCols ceilSqrt
  split
  · exact Nat.sqrt_pos.mpr hn
  · omega

theorem gridRows_pos {n : ℕ} (hn : 1 ≤ n) : 0 < gridRows n := by
  have hc : (0 : ℚ) < (gridCols n : ℚ) := by exact_mod_cast gridCols_pos hn
  have hq : (0 : ℚ) < (n : ℚ) := by exact_mod_cast hn
  exact Nat.ceil_pos.mpr (div_pos hq hc)

theorem le_gridCols_mul_gridRows {n : ℕ} (hn : 1 ≤ n) :
    n ≤ gridCols n * gridRows n := by
  have hc : (0 : ℚ) < (gridCols n : ℚ) := by exact_mod_cast gridCols_pos hn
  have hle : (n : ℚ) / (gridCols n : ℚ) ≤ (gridRows n : ℚ) := Nat.le_ceil _
  rw [div_le_iff₀ hc] at hle
  have : (n : ℚ) ≤ ((gridCols n * gridRows n : ℕ) : ℚ) := by
    push_cast
    linarith [hle]
  exact_mod_cast this

theorem cellAnchor_injective {cols : ℕ} {cw ch : ℚ}
    (hcw : 0 < cw) (hch : 0 < ch) :
    Function.Injective (cellAnchor cols cw ch) := by
  intro i j h
  have hx : ((i % cols : ℕ) : ℚ) * cw + cw / 2 - 100 =
      ((j % cols : ℕ) : ℚ) * cw + cw / 2 - 100 := congrArg Position.x h
  have hy : ((i / cols : ℕ) : ℚ) * ch + ch / 2 - 100 =
      ((j / cols : ℕ) : ℚ) * ch + ch / 2 - 100 := congrArg Position.y h
  have hmod : i % cols = j % cols := by
    have : ((i % cols : ℕ) : ℚ) * cw = ((j % cols : ℕ) : ℚ) * cw := by linarith
    exact_mod_cast mul_right_cancel₀ hcw.ne' this
  have hdiv : i / cols = j / cols := by
    have : ((i / cols : ℕ) : ℚ) * ch = ((j / cols : ℕ) : ℚ) * ch := by linarith
    exact_mod_cast mul_right_cancel₀ hch.ne' this
  calc i = cols * (i / cols) + i % cols := (Nat.div_add_mod i cols).symm
    _ = cols * (j / cols) + j % cols := by rw [hmod, hdiv]
    _ = j := Nat.div_add_mod j cols

theorem getInitialPositions_map_fst (schema : List SchemaTable) (w h : ℚ) :
    (getInitialPositions schema w h).map Prod.fst = schema.map SchemaTable.name := by
  unfold getInitialPositions
  rw [List.map_map]
  have : (Prod.fst ∘ fun p : ℕ × SchemaTable =>
      (p.2.name, cellAnchor (gridCols schema.length) (w / (gridCols schema.length : ℚ))
        (h / (gridRows schema.length : ℚ)) p.1)) =
      (SchemaTable.name ∘ Prod.snd) := rfl
  rw [this, ← List.map_map, List.enum_map_snd]

theorem getInitialPositions_map_snd (schema : List SchemaTable) (w h : ℚ) :
    (getInitialPositions schema w h).map Prod.snd =
      (List.range schema.length).map
        (cellAnchor (gridCols schema.length) (w / (gridCols schema.length : ℚ))
          (h / (gridRows schema.length : ℚ))) := by
  unfold getInitialPositions
  rw [List.map_map]
  have : (Prod.snd ∘ fun p : ℕ × SchemaTable =>
      (p.2.name, cellAnchor (gridCols schema.length) (w / (gridCols schema.length : ℚ))
        (h / (gridRows schema.length : ℚ)) p.1)) =
      ((cellAnchor (gridCols schema.length) (w / (gridCols schema.length : ℚ))
        (h / (gridRows schema.length : ℚ))) ∘ Prod.fst) := rfl
  rw [this, ← List.map_map, List.enum_map_fst]

/-- C4: for every schema of N ≥ 1 tables with distinct names and a
container of positive width and height, the initial layout assigns
exactly N positions keyed by the N distinct table names, all N positions
distinct, on a grid of `cols = ⌈√N⌉` columns and `rows = ⌈N/cols⌉` rows;
the node of schema index `i` sits in cell `(i % cols, i / cols)` (a valid
cell of the grid), and its anchor is offset from the cell's center by
half the node's nominal 200×200 footprint, so that the footprint's
bounding box — not the anchor point — is centered in the cell. -/
theorem C4_initial_grid_layout (schema : List SchemaTable) (width height : ℚ)
    (hn : 1 ≤ schema.length)
    (hnames : (schema.map SchemaTable.name).Nodup)
    (hw : 0 < width) (hh : 0 < height) :
    (getInitialPositions schema width height).length = schema.length ∧
    ((getInitialPositions schema width height).map Prod.fst).Nodup ∧
    ((getInitialPositions schema width height).map Prod.snd).Nodup ∧
    gridCols schema.length = ⌈Real.sqrt (schema.length : ℝ)⌉₊ ∧
    gridRows schema.length =
      ⌈(schema.length : ℚ) / (gridCols schema.length : ℚ)⌉₊ ∧
    (getInitialPositions schema width height).map Prod.snd =
      (List.range schema.length).map
        (cellAnchor (gridCols schema.length) (width / (gridCols schema.length : ℚ))
          (height / (gridRows schema.length : ℚ))) ∧
    (∀ i : ℕ, i < schema.length →
      i % gridCols schema.length < gridCols schema.length ∧
      i / gridCols schema.length < gridRows schema.length ∧
      (cellAnchor (gridCols schema.length) (width / (gridCols schema.length : ℚ))
          (height / (gridRows schema.length : ℚ)) i).x + nodeFootprint / 2 =
        ((i % gridCols schema.length : ℕ) : ℚ) * (width / (gridCols schema.length : ℚ)) +
          (width / (gridCols schema.length : ℚ)) / 2 ∧
      (cellAnchor (gridCols schema.length) (width / (gridCols schema.length : ℚ))
          (height / (gridRows schema.length : ℚ)) i).y + nodeFootprint / 2 =
        ((i / gridCols schema.length : ℕ) : ℚ) * (height / (gridRows schema.length : ℚ)) +
          (height / (gridRows schema.length : ℚ)) / 2) := by
  have hcols := gridCols_pos hn
  have hrows := gridRows_pos hn
  have hcq : (0 : ℚ) < (gridCols schema.length : ℚ) := by exact_mod_cast hcols
  have hrq : (0 : ℚ) < (gridRows schema.length : ℚ) := by exact_mod_cast hrows
  have hcw : 0 < width / (gridCols schema.length : ℚ) := div_pos hw hcq
  have hch : 0 < height / (gridRows schema.length : ℚ) := div_pos hh hrq
  refine ⟨?_, ?_, ?_, ceilSqrt_eq_ceil_real_sqrt _, rfl, getInitialPositions_map_snd _ _ _, ?_⟩
  · unfold getInitialPositions
    rw [List.length_map, List.enum_length]
  · rw [getInitialPositions_map_fst]
    exact hnames
  · rw [getInitialPositions_map_snd]
    exact (List.nodup_range _).map (cellAnchor_injective hcw hch)
  · intro i hi
    refine ⟨Nat.mod_lt _ hcols, ?_, ?_, ?_⟩
    · exact Nat.div_lt_of_lt_mul
        (lt_of_lt_of_le hi (le_gridCols_mul_gridRows hn))
    · unfold cellAnchor nodeFootprint
      ring
    · unfold cellAnchor nodeFootprint
      ring

/-- C4 witness: the layout theorem applied to the two-table schema
`users`/`orders` in a 400×300 container. -/
theorem C4_initial_grid_layout_witness :
    (1 ≤ schemaOrdersUsers.length ∧
      (schemaOrdersUsers.map SchemaTable.name).Nodup ∧
      (0 : ℚ) < 400 ∧ (0 : ℚ) < 300) ∧
    ((getInitialPositions schemaOrdersUsers 400 300).map Prod.snd).Nodup ∧
    (getInitialPositions schemaOrdersUsers 400 300).length = 2 :=
  ⟨⟨by decide, by decide, by norm_num, by norm_num⟩,
    (C4_initial_grid_layout schemaOrdersUsers 400 300 (by decide) (by decide)
      (by norm_num) (by norm_num)).2.2.1,
    (C4_initial_grid_layout schemaOrdersUsers 400 300 (by decide) (by decide)
      (by norm_num) (by norm_num)).1⟩

theorem executeQuery_mutation_ok {Db : Type} (E : Engine Db) (d : Durations)
    (db db2 : Db) (t : ℚ) (sql : Str) (hsel : isSelectStmt sql = false)
    (hrun : E.run db (jsTrim sql) = .ok db2) :
    executeQuery E d db t sql = .ok (db2, ⟨["Status".toList],
      [[Value.text ("Query executed successfully".toList)]],
      some (E.getRowsModified db2), d.trim + d.classify + d.run⟩) := by
  have hsel' : jsStartsWith selectKeyword (jsToUpper (jsTrim sql)) = false := hsel
  unfold executeQuery
  simp only [hsel', Bool.false_eq_true, if_false, hrun]
  have harith : t + d.trim + d.classify + d.run - t =
      d.trim + d.classify + d.run := by ring
  rw [harith]

theorem executeQuery_select_none (Db : Type) (E : Engine Db) (d : Durations)
    (db : Db) (t : ℚ) (sql : Str) (hsel : isSelectStmt sql = true)
    (hexec : E.exec db (jsTrim sql) = .ok []) :
    executeQuery E d db t sql =
      .ok (db, ⟨[], [], none, d.trim + d.classify + d.exec⟩) := by
  have hsel' : jsStartsWith selectKeyword (jsToUpper (jsTrim sql)) = true := hsel
  unfold executeQuery
  simp only [hsel', if_true, hexec]
  have harith : t + d.trim + d.classify + d.exec - t =
      d.trim + d.classify + d.exec := by ring
  rw [harith]

theorem executeQuery_select_cons (Db : Type) (E : Engine Db) (d : Durations)
    (db : Db) (t : ℚ) (sql : Str) (rs : ResultSet) (rest : List ResultSet)
    (hsel : isSelectStmt sql = true)
    (hexec : E.exec db (jsTrim sql) = .ok (rs :: rest)) :
    executeQuery E d db t sql =
      .ok (db, ⟨rs.columns, rs.values, none, d.trim + d.classify + d.exec⟩) := by
  have hsel' : jsStartsWith selectKeyword (jsToUpper (jsTrim sql)) = true := hsel
  unfold executeQuery
  simp only [hsel', if_true, hexec]
  have harith : t + d.trim + d.classify + d.exec - t =
      d.trim + d.classify + d.exec := by ring
  rw [harith]

/-- C2: the executor trims the statement and compares the leading keyword
case-insensitively (`"  select 1"` is a projection); every non-`SELECT`
statement takes the mutation/definition path, which runs the statement,
queries the affected-row count, and returns the one-column, one-row
status `QueryResult` carrying `rowsAffected`; in the modelled engine,
after `CREATE TABLE t(x INTEGER)`, executing
`INSERT INTO t(x) VALUES (1),(2),(3)` yields `rowsAffected == 3`. -/
theorem C2_classification_and_mutation_path :
    isSelectStmt ("  select 1".toList) = true ∧
    (∀ (Db : Type) (E : Engine Db) (d : Durations) (db db2 : Db) (t : ℚ)
      (sql : Str), isSelectStmt sql = false → E.run db (jsTrim sql) = .ok db2 →
      executeQuery E d db t sql = .ok (db2, ⟨["Status".toList],
        [[Value.text ("Query executed successfully".toList)]],
        some (E.getRowsModified db2), d.trim + d.classify + d.run⟩)) ∧
    mutationScenario = some (some 3) := by
  refine ⟨by decide, ?_, by decide⟩
  intro Db E d db db2 t sql hsel hrun
  exact executeQuery_mutation_ok E d db db2 t sql hsel hrun

/-- C2 witness: a concrete mutation statement on the trivial engine takes
the mutation path with the status result. -/
theorem C2_classification_witness :
    isSelectStmt ("DROP TABLE x".toList) = false ∧
    executeQuery unitEngine d0 () 0 ("DROP TABLE x".toList) =
      .ok ((), ⟨["Status".toList],
        [[Value.text ("Query executed successfully".toList)]],
        some (unitEngine.getRowsModified ()),
        d0.trim + d0.classify + d0.run⟩) :=
  ⟨by decide, C2_classification_and_mutation_path.2.1 Unit unitEngine d0 () () 0
    ("DROP TABLE x".toList) (by decide) rfl⟩

/-- C3: on the projection path, an engine round-trip with no result set at
all yields the empty `QueryResult` (empty columns, empty rows), while a
returned result set is passed through (so a result set with populated
columns and zero rows keeps its populated columns); the mutation path
always returns nonempty columns and a nonempty row list, hence never
produces either of those shapes. -/
theorem C3_empty_result_distinction :
    (∀ (Db : Type) (E : Engine Db) (d : Durations) (db : Db) (t : ℚ)
      (sql : Str), isSelectStmt sql = true →
      (E.exec db (jsTrim sql) = .ok [] →
        executeQuery E d db t sql =
          .ok (db, ⟨[], [], none, d.trim + d.classify + d.exec⟩)) ∧
      (∀ (rs : ResultSet) (rest : List ResultSet),
        E.exec db (jsTrim sql) = .ok (rs :: rest) →
        executeQuery E d db t sql =
          .ok (db, ⟨rs.columns, rs.values, none,
            d.trim + d.classify + d.exec⟩))) ∧
    (∀ (Db : Type) (E : Engine Db) (d : Durations) (db db2 : Db) (t : ℚ)
      (sql : Str) (r : QueryResult), isSelectStmt sql = false →
      executeQuery E d db t sql = .ok (db2, r) →
      r.columns ≠ [] ∧ r.values ≠ []) := by
  constructor
  · intro Db E d db t sql hsel
    exact ⟨executeQuery_select_none Db E d db t sql hsel,
      fun rs rest hexec => executeQuery_select_cons Db E d db t sql rs rest hsel hexec⟩
  · intro Db E d db db2 t sql r hsel h
    cases hrun : E.run db (jsTrim sql) with
    | error e =>
      have hsel' : jsStartsWith selectKeyword (jsToUpper (jsTrim sql)) = false := hsel
      unfold executeQuery at h
      simp only [hsel', Bool.false_eq_true, if_false, hrun] at h
      exact Except.noConfusion h
    | ok db3 =>
      rw [executeQuery_mutation_ok E d db db3 t sql hsel hrun] at h
      simp only [Except.ok.injEq, Prod.mk.injEq] at h
      obtain ⟨-, hr⟩ := h
      rw [← hr]
      exact ⟨by simp, by simp⟩

/-- C3 witness: a concrete projection on the trivial engine (whose `exec`
returns no result set) yields the empty `QueryResult`. -/
theorem C3_empty_result_witness :
    isSelectStmt ("SELECT * FROM t".toList) = true ∧
    executeQuery unitEngine d0 () 0 ("SELECT * FROM t".toList) =
      .ok ((), ⟨[], [], none, d0.trim + d0.classify + d0.exec⟩) :=
  ⟨by decide, (C3_empty_result_distinction.1 Unit unitEngine d0 () 0
    ("SELECT * FROM t".toList) (by decide)).1 rfl⟩

theorem isSelectStmt_iff_take_six (s : Str) :
    isSelectStmt s = true ↔ selectKeyword = (jsToUpper (jsTrim s)).take 6 := by
  unfold isSelectStmt jsStartsWith
  rw [List.isPrefixOf_iff_prefix, List.prefix_iff_eq_take]
  have hlen : selectKeyword.length = 6 := by decide
  rw [hlen]

/-- C10 (implicit): classification is a pure six-character prefix test
with no word boundary — it depends only on the first six characters of
the uppercased trimmed statement, and statements beginning with
`SELECTION` or `selectx` are classified as projections. -/
theorem C10_prefix_only_classification :
    (∀ s1 s2 : Str,
      (jsToUpper (jsTrim s1)).take 6 = (jsToUpper (jsTrim s2)).take 6 →
      isSelectStmt s1 = isSelectStmt s2) ∧
    isSelectStmt ("SELECTION OF data".toList) = true ∧
    isSelectStmt ("selectx".toList) = true ∧
    isSelectStmt ("  SELECTIONx  ".toList) = true := by
  refine ⟨?_, by decide, by decide, by decide⟩
  intro s1 s2 h
  cases h1 : isSelectStmt s1 with
  | true =>
    have hk := (isSelectStmt_iff_take_six s1).mp h1
    rw [h] at hk
    rw [(isSelectStmt_iff_take_six s2).mpr hk]
  | false =>
    cases h2 : isSelectStmt s2 with
    | false => rfl
    | true =>
      have hk := (isSelectStmt_iff_take_six s2).mp h2
      rw [← h] at hk
      rw [(isSelectStmt_iff_take_six s1).mpr hk] at h1
      exact absurd h1 (by simp)

/-- C10 witness: the invariance applied to two concrete statements that
agree on the first six uppercased characters. -/
theorem C10_prefix_only_witness :
    ("SELECTION OF data".toList |> jsTrim |> jsToUpper).take 6 =
      ("selectx".toList |> jsTrim |> jsToUpper).take 6 ∧
    isSelectStmt ("SELECTION OF data".toList) =
      isSelectStmt ("selectx".toList) :=
  ⟨by decide, C10_prefix_only_classification.1 ("SELECTION OF data".toList)
    ("selectx".toList) (by decide)⟩

theorem executeQuery_executionTime {Db : Type} (E : Engine Db)
    (d : Durations) (db db2 : Db) (t : ℚ) (sql : Str) (r : QueryResult)
    (h : executeQuery E d db t sql = .ok (db2, r)) :
    r.executionTime =
      d.trim + d.classify + (if isSelectStmt sql then d.exec else d.run) := by
  cases hsel : isSelectStmt sql with
  | true =>
    have hsel' : jsStartsWith selectKeyword (jsToUpper (jsTrim sql)) = true := hsel
    unfold executeQuery at h
    simp only [hsel', if_true] at h
    cases hexec : E.exec db (jsTrim sql) with
    | error e => rw [hexec] at h; simp at h
    | ok results =>
      rw [hexec] at h
      cases results with
      | nil =>
        simp only [Except.ok.injEq, Prod.mk.injEq] at h
        obtain ⟨-, hr⟩ := h
        rw [← hr]
        simp only [if_true]
        ring
      | cons rs rest =>
        simp only [Except.ok.injEq, Prod.mk.injEq] at h
        obtain ⟨-, hr⟩ := h
        rw [← hr]
        simp only [if_true]
        ring
  | false =>
    have hsel' : jsStartsWith selectKeyword (jsToUpper (jsTrim sql)) = false := hsel
    unfold executeQuery at h
    simp only [hsel', Bool.false_eq_true, if_false] at h
    cases hrun : E.run db (jsTrim sql) with
    | error e => rw [hrun] at h; simp at h
    | ok db3 =>
      rw [hrun] at h
      simp only [Except.ok.injEq, Prod.mk.injEq] at h
      obtain ⟨-, hr⟩ := h
      rw [← hr]
      simp only [Bool.false_eq_true, if_false]
      ring

/-- C7, amended: `executionTime` spans from the `performance.now()`
reading taken just after any lazily triggered `initDatabase()` to the
reading just after the engine call, so it excludes the lazy bootstrap but
includes statement trimming and keyword classification — it equals
`d.trim + d.classify` plus the engine-call duration, independently of
`d.init`. -/
theorem C7_timing_scope_amended :
    ∀ (Rt Db : Type) (loadRuntime : Except Str Rt) (newDb : Rt → Db)
      (seed : Db → Db) (E : Engine Db) (d : Durations)
      (s : EngineState Rt Db) (t0 : ℚ) (sql : Str)
      (s2 : EngineState Rt Db) (r : QueryResult),
      executeQueryFull loadRuntime newDb seed E d s t0 sql = .ok (s2, r) →
      r.executionTime =
        d.trim + d.classify + (if isSelectStmt sql then d.exec else d.run) := by
  intro Rt Db loadRuntime newDb seed E d s t0 sql s2 r h
  unfold executeQueryFull at h
  dsimp only at h
  split at h
  · exact Except.noConfusion h
  · split at h
    · exact Except.noConfusion h
    · split at h
      · exact Except.noConfusion h
      · simp only [Except.ok.injEq, Prod.mk.injEq] at h
        obtain ⟨-, hr⟩ := h
        subst hr
        exact executeQuery_executionTime _ _ _ _ _ _ _ (by assumption)

/-- C7 counterexample to the claim as stated: with trimming taking 1 time
unit, classification 2 and the engine call 5, the measured
`executionTime` is 8, not the engine-execution duration 5, because
`performance.now()` is read at line 54, before the trim at line 57 and
the comparison at line 60. -/
theorem C7_claim_counterexample :
    okResult (executeQueryFull (Except.ok ()) (fun _ => ()) (fun x => x)
      unitEngine dCX (EngineState.mk (some ()) (some ())) 0
      ("SELECT 1".toList)) =
      some ⟨[], [], none, dCX.trim + dCX.classify + dCX.exec⟩ ∧
    dCX.trim + dCX.classify + dCX.exec = 8 ∧ dCX.exec = 5 ∧
    dCX.trim + dCX.classify + dCX.exec ≠ dCX.exec := by
  have h1 : executeQuery unitEngine dCX () (0 + 0) ("SELECT 1".toList) =
      .ok ((), ⟨[], [], none, dCX.trim + dCX.classify + dCX.exec⟩) :=
    executeQuery_select_none Unit unitEngine dCX () (0 + 0)
      ("SELECT 1".toList) (by decide) rfl
  refine ⟨?_, by norm_num [dCX], by norm_num [dCX], by norm_num [dCX]⟩
  unfold executeQueryFull
  simp only [Option.isNone_some, Option.isNone_none, Option.isSome_some,
    Option.isSome_none, Bool.false_eq_true, if_false, if_true]
  rw [h1]
  rfl

/-- C7 witness: the amended timing theorem applied to a concrete lazy
bootstrap followed by a projection — the 50-unit `initDatabase()` cost is
excluded, while the 1-unit trim and 2-unit classification costs are
included. -/
theorem C7_timing_scope_witness :
    executeQueryFull (Except.ok ()) (fun _ => ()) (fun x => x) unitEngine dCX
      (EngineState.mk none none) 0 ("  select 1".toList) =
      .ok (EngineState.mk (some ()) (some ()),
        ⟨[], [], none, dCX.trim + dCX.classify + dCX.exec⟩) ∧
    dCX.trim + dCX.classify + dCX.exec = dCX.trim + dCX.classify +
      (if isSelectStmt ("  select 1".toList) then dCX.exec else dCX.run) := by
  have h1 : executeQuery unitEngine dCX () (0 + dCX.init)
      ("  select 1".toList) =
      .ok ((), ⟨[], [], none, dCX.trim + dCX.classify + dCX.exec⟩) :=
    executeQuery_select_none Unit unitEngine dCX () (0 + dCX.init)
      ("  select 1".toList) (by decide) rfl
  have h : executeQueryFull (Except.ok ()) (fun _ => ()) (fun x => x)
      unitEngine dCX (EngineState.mk none none) 0 ("  select 1".toList) =
      .ok (EngineState.mk (some ()) (some ()),
        ⟨[], [], none, dCX.trim + dCX.classify + dCX.exec⟩) := by
    unfold executeQueryFull initDatabase
    simp only [Option.isNone_some, Option.isNone_none, Option.isSome_some,
      Option.isSome_none, Bool.false_eq_true, if_false, if_true]
    rw [h1]
  exact ⟨h, C7_timing_scope_amended Unit Unit (Except.ok ()) (fun _ => ())
    (fun x => x) unitEngine dCX (EngineState.mk none none) 0
    ("  select 1".toList) (EngineState.mk (some ()) (some ()))
    ⟨[], [], none, dCX.trim + dCX.classify + dCX.exec⟩ h⟩

/-- C9: after a successful `initDatabase()` the second call is a no-op —
it returns the same state, reports no error, and performs no effect
(no runtime reload, no database creation, no re-seeding). -/
theorem C9_initialize_idempotent :
    ∀ (Rt Db : Type) (loadRuntime : Except Str Rt) (newDb : Rt → Db)
      (seed : Db → Db) (s s1 : EngineState Rt Db) (evs : List InitEvent),
      initDatabase loadRuntime newDb seed s = (s1, none, evs) →
      initDatabase loadRuntime newDb seed s1 = (s1, none, []) := by
  intro Rt Db loadRuntime newDb seed s s1 evs h
  unfold initDatabase at h ⊢
  by_cases hs : s.SQL.isSome = true
  · simp only [hs, if_true] at h
    simp only [Prod.mk.injEq] at h
    obtain ⟨h1, -⟩ := h
    subst h1
    simp only [hs, if_true]
  · simp only [hs, Bool.false_eq_true, if_false] at h
    cases hload : loadRuntime with
    | error e => rw [hload] at h; simp at h
    | ok r =>
      rw [hload] at h
      simp only [Prod.mk.injEq] at h
      obtain ⟨h1, -⟩ := h
      subst h1
      simp

/-- C9 witness: a concrete bootstrap followed by a second call that
returns the state unchanged with no effects. -/
theorem C9_initialize_idempotent_witness :
    initDatabase (Except.ok 0) (fun _ => 1) (fun x => x)
      (EngineState.mk (none : Option ℕ) (none : Option ℕ)) =
      (EngineState.mk (some 0) (some 1), none,
        [InitEvent.runtimeLoaded, InitEvent.dbCreated, InitEvent.seeded]) ∧
    initDatabase (Except.ok 0) (fun _ => 1) (fun x => x)
      (EngineState.mk (some 0) (some 1)) =
      (EngineState.mk (some 0) (some 1), none, []) :=
  ⟨rfl, C9_initialize_idempotent ℕ ℕ (Except.ok 0) (fun _ => 1) (fun x => x)
    (EngineState.mk none none) (EngineState.mk (some 0) (some 1))
    [InitEvent.runtimeLoaded, InitEvent.dbCreated, InitEvent.seeded] rfl⟩

/-- C5: on a Ready session, `importDatabase` replaces the database
wholesale exactly when deserialization succeeds; when deserialization
fails, the error propagates and the session still holds the previous
runtime and database. -/
theorem C5_import_snapshot_atomic :
    ∀ (Rt Db : Type) (loadRuntime : Except Str Rt) (newDb : Rt → Db)
      (seed : Db → Db) (deserialize : List ℕ → Except Str Db)
      (rt : Rt) (dbOld : Db) (data : List ℕ),
      (∀ e, deserialize data = .error e →
        importDatabase loadRuntime newDb seed deserialize
          (EngineState.mk (some rt) (some dbOld)) data =
          (EngineState.mk (some rt) (some dbOld), some e)) ∧
      (∀ dNew, deserialize data = .ok dNew →
        importDatabase loadRuntime newDb seed deserialize
          (EngineState.mk (some rt) (some dbOld)) data =
          (EngineState.mk (some rt) (some dNew), none)) := by
  intro Rt Db loadRuntime newDb seed deserialize rt dbOld data
  constructor
  · intro e hde
    unfold importDatabase
    simp only [Option.isNone_some, Bool.false_eq_true, if_false]
    rw [hde]
  · intro dNew hde
    unfold importDatabase
    simp only [Option.isNone_some, Bool.false_eq_true, if_false]
    rw [hde]

/-- C5 witness: a concrete failing import leaves the held database `7`
in place and propagates the error, while a successful import replaces
it. -/
theorem C5_import_snapshot_witness :
    ((fun b => if b = [1] then Except.ok 9 else Except.error ("bad".toList) :
        List ℕ → Except Str ℕ) [0] = Except.error ("bad".toList)) ∧
    importDatabase (Except.ok 0) (fun _ => 1) (fun x => x)
      (fun b => if b = [1] then Except.ok 9 else Except.error ("bad".toList))
      (EngineState.mk (some 0) (some 7)) [0] =
      (EngineState.mk (some 0) (some 7), some ("bad".toList)) ∧
    importDatabase (Except.ok 0) (fun _ => 1) (fun x => x)
      (fun b => if b = [1] then Except.ok 9 else Except.error ("bad".toList))
      (EngineState.mk (some 0) (some 7)) [1] =
      (EngineState.mk (some 0) (some 9), none) :=
  ⟨rfl,
    (C5_import_snapshot_atomic ℕ ℕ (Except.ok 0) (fun _ => 1) (fun x => x)
      (fun b => if b = [1] then Except.ok 9 else Except.error ("bad".toList))
      0 7 [0]).1 ("bad".toList) rfl,
    (C5_import_snapshot_atomic ℕ ℕ (Except.ok 0) (fun _ => 1) (fun x => x)
      (fun b => if b = [1] then Except.ok 9 else Except.error ("bad".toList))
      0 7 [1]).2 9 rfl⟩

theorem lexLe_cons (x y : Char) (xs ys : Str) :
    lexLe (x :: xs) (y :: ys) =
      if x.toNat < y.toNat then true
      else if y.toNat < x.toNat then false
      else lexLe xs ys := rfl

theorem lexLe_trans : ∀ (a b c : Str),
    lexLe a b = true → lexLe b c = true → lexLe a c = true := by
  intro a
  induction a with
  | nil => intro b c _ _; rfl
  | cons x xs ih =>
    intro b c hab hbc
    cases b with
    | nil => simp [lexLe] at hab
    | cons y ys =>
      cases c with
      | nil => simp [lexLe] at hbc
      | cons z zs =>
        rw [lexLe_cons] at hab hbc ⊢
        rcases Nat.lt_trichotomy x.toNat y.toNat with hxy | hxy | hxy
        · rcases Nat.lt_trichotomy y.toNat z.toNat with hyz | hyz | hyz
          · rw [if_pos (by omega)]
          · rw [if_pos (by omega)]
          · rw [if_neg (by omega), if_pos hyz] at hbc
            exact absurd hbc (by simp)
        · rcases Nat.lt_trichotomy y.toNat z.toNat with hyz | hyz | hyz
          · rw [if_pos (by omega)]
          · rw [if_neg (by omega), if_neg (by omega)] at hab
            rw [if_neg (by omega), if_neg (by omega)] at hbc
            rw [if_neg (by omega), if_neg (by omega)]
            exact ih ys zs hab hbc
          · rw [if_neg (by omega), if_pos hyz] at hbc
            exact absurd hbc (by simp)
        · rw [if_neg (by omega), if_pos hxy] at hab
          exact absurd hab (by simp)

theorem lexLe_total : ∀ (a b : Str), (lexLe a b || lexLe b a) = true := by
  intro a
  induction a with
  | nil => intro b; simp [lexLe]
  | cons x xs ih =>
    intro b
    cases b with
    | nil => simp [lexLe]
    | cons y ys =>
      rw [lexLe_cons, lexLe_cons]
      rcases Nat.lt_trichotomy x.toNat y.toNat with h | h | h
      · rw [if_pos h]
        simp
      · rw [if_neg (by omega), if_neg (by omega), if_neg (by omega),
          if_neg (by omega)]
        exact ih ys
      · have h2 : ¬ x.toNat < y.toNat := by omega
        simp [h, h2]

theorem userTableNames_sorted (d : ReflDb) :
    (userTableNames d).Pairwise (fun a b => lexLe a b = true) := by
  unfold userTableNames
  exact @List.sorted_mergeSort Str lexLe lexLe_trans lexLe_total _

theorem reflectTables_eq_none {d : ReflDb} :
    ∀ {ns : List Str} {n : Str}, n ∈ ns → pragmaTableInfo d n = none →
    reflectTables d ns = none := by
  intro ns
  induction ns with
  | nil => intro n h; simp at h
  | cons m rest ih =>
    intro n hmem hfail
    unfold reflectTables
    rcases List.mem_cons.mp hmem with heq | hmem2
    · subst heq; rw [hfail]
    · cases hp : pragmaTableInfo d m with
      | none => rfl
      | some cols => rw [ih hmem2 hfail]

theorem reflectTables_ok {d : ReflDb} :
    ∀ {ns : List Str},
    (∀ n ∈ ns, ∃ cols, pragmaTableInfo d n = some cols ∧ cols ≠ []) →
    ∃ ts, reflectTables d ns = some ts ∧
      ts.map SchemaTable.name = ns ∧
      ∀ t ∈ ts, ∃ cols, pragmaTableInfo d t.name = some cols ∧
        t.columns = cols.map toSchemaColumn := by
  intro ns
  induction ns with
  | nil => intro _; exact ⟨[], rfl, rfl, by simp⟩
  | cons m rest ih =>
    intro h
    obtain ⟨cols, hp, hne⟩ := h m (by simp)
    obtain ⟨ts, hrt, hmap, hall⟩ := ih (fun n hn => h n (by simp [hn]))
    have hemp : cols.isEmpty = false := by
      cases cols
      · simp at hne
      · rfl
    refine ⟨⟨m, cols.map toSchemaColumn⟩ :: ts, ?_, ?_, ?_⟩
    · unfold reflectTables
      rw [hp, hrt]
      dsimp only
      rw [hemp]
      simp
    · simp [hmap]
    · intro t ht
      rcases List.mem_cons.mp ht with rfl | ht2
      · exact ⟨cols, hp, rfl⟩
      · exact hall t ht2

/-- C6: the reflector returns an empty sequence on an Uninitialized
session (structurally not an error); the enumerated names are exactly the
catalog tables that do not match the engine-internal `sqlite_%` pattern,
ordered lexicographically; when the catalog query fails, or the column
fetch of any enumerated table fails mid-traversal, the whole reflection
returns the empty sequence, never a partial one; when nothing fails the
result lists exactly the enumerated tables with their columns converted
in the engine's native declaration order. -/
theorem C6_schema_reflection_fail_safe :
    getSchema none = [] ∧
    (∀ d : ReflDb, (userTableNames d).Pairwise (fun a b => lexLe a b = true) ∧
      (∀ n : Str, n ∈ userTableNames d ↔
        (n ∈ d.catalog.map Prod.fst ∧ matchesSqlitePattern n = false))) ∧
    (∀ d : ReflDb, d.catalogFails = true → getSchema (some d) = []) ∧
    (∀ d : ReflDb, ∀ n : Str, n ∈ userTableNames d →
      pragmaTableInfo d n = none → getSchema (some d) = []) ∧
    (∀ d : ReflDb, d.catalogFails = false →
      (∀ n ∈ userTableNames d, ∃ cols,
        pragmaTableInfo d n = some cols ∧ cols ≠ []) →
      (getSchema (some d)).map SchemaTable.name = userTableNames d ∧
      ∀ t ∈ getSchema (some d), ∃ cols,
        pragmaTableInfo d t.name = some cols ∧
        t.columns = cols.map toSchemaColumn) := by
  refine ⟨rfl, ?_, ?_, ?_, ?_⟩
  · intro d
    refine ⟨userTableNames_sorted d, ?_⟩
    intro n
    unfold userTableNames
    rw [List.mem_mergeSort, List.mem_filter]
    simp
  · intro d h
    unfold getSchema
    dsimp only
    rw [h]
    simp
  · intro d n hmem hfail
    unfold getSchema
    dsimp only
    by_cases hc : d.catalogFails = true
    · simp [hc]
    · simp only [Bool.not_eq_true] at hc
      simp only [hc, Bool.false_eq_true, if_false]
      rw [reflectTables_eq_none hmem hfail]
  · intro d hc hall
    obtain ⟨ts, hrt, hmap, hcols⟩ := reflectTables_ok hall
    unfold getSchema
    dsimp only
    simp only [hc, Bool.false_eq_true, if_false, hrt]
    exact ⟨hmap, hcols⟩

/-- C6 witness: on a concrete catalog where `PRAGMA table_info(orders)`
fails mid-traversal, the reflector returns the empty sequence rather than
the partial `[users]`. -/
theorem C6_schema_reflection_witness :
    ("orders".toList ∈ reflDbFail.catalog.map Prod.fst ∧
      matchesSqlitePattern ("orders".toList) = false) ∧
    pragmaTableInfo reflDbFail ("orders".toList) = none ∧
    getSchema (some reflDbFail) = [] :=
  ⟨⟨by decide, by decide⟩, by decide,
    C6_schema_reflection_fail_safe.2.2.2.1 reflDbFail ("orders".toList)
      (((C6_schema_reflection_fail_safe.2.1 reflDbFail).2
        ("orders".toList)).mpr ⟨by decide, by decide⟩) (by decide)⟩

theorem dropStep_stuck (acc : ReflDb × List Str) (t : SchemaTable) :
    (dropStep acc t).1.stuck = acc.1.stuck := by
  unfold dropStep runDrop
  by_cases h : t.name ∈ acc.1.stuck
  · simp [h]
  · simp [h]

theorem dropStep_attempts (acc : ReflDb × List Str) (t : SchemaTable) :
    (dropStep acc t).2 = acc.2 ++ [t.name] := by
  unfold dropStep runDrop
  by_cases h : t.name ∈ acc.1.stuck
  · simp [h]
  · simp [h]

theorem foldl_dropStep_attempts :
    ∀ (ts : List SchemaTable) (acc : ReflDb × List Str),
      (ts.foldl dropStep acc).2 = acc.2 ++ ts.map SchemaTable.name := by
  intro ts
  induction ts with
  | nil => intro acc; simp
  | cons t rest ih =>
    intro acc
    rw [List.foldl_cons, ih (dropStep acc t), dropStep_attempts]
    simp

theorem dropStep_notin (acc : ReflDb × List Str) (t : SchemaTable)
    {n : Str} (h : n ∉ acc.1.catalog.map Prod.fst) :
    n ∉ (dropStep acc t).1.catalog.map Prod.fst := by
  unfold dropStep runDrop
  by_cases hs : t.name ∈ acc.1.stuck
  · simpa [hs] using h
  · simp only [hs, if_false]
    intro hmem
    apply h
    simp only [List.mem_map, List.mem_filter] at hmem ⊢
    obtain ⟨p, ⟨hp, -⟩, hpn⟩ := hmem
    exact ⟨p, hp, hpn⟩

theorem foldl_dropStep_notin :
    ∀ (ts : List SchemaTable) (acc : ReflDb × List Str) {n : Str},
      n ∉ acc.1.catalog.map Prod.fst →
      n ∉ ((ts.foldl dropStep acc).1).catalog.map Prod.fst := by
  intro ts
  induction ts with
  | nil => intro acc n h; exact h
  | cons t rest ih =>
    intro acc n h
    exact ih (dropStep acc t) (dropStep_notin acc t h)

theorem foldl_dropStep_removes :
    ∀ (ts : List SchemaTable) (acc : ReflDb × List Str) (t : SchemaTable),
      t ∈ ts → t.name ∉ acc.1.stuck →
      t.name ∉ ((ts.foldl dropStep acc).1).catalog.map Prod.fst := by
  intro ts
  induction ts with
  | nil => intro acc t h; simp at h
  | cons t0 rest ih =>
    intro acc t hmem hstuck
    rcases List.mem_cons.mp hmem with heq | hmem2
    · subst heq
      have h1 : t.name ∉ (dropStep acc t).1.catalog.map Prod.fst := by
        unfold dropStep runDrop
        simp only [hstuck, if_false]
        intro hmem3
        simp only [List.mem_map, List.mem_filter] at hmem3
        obtain ⟨p, ⟨-, hpn⟩, hpeq⟩ := hmem3
        rw [hpeq] at hpn
        simp at hpn
      exact foldl_dropStep_notin rest (dropStep acc t) h1
    · refine ih (dropStep acc t0) t hmem2 ?_
      rw [dropStep_stuck]
      exact hstuck

/-- C8: `reset` enumerates the user tables via the Schema Reflector and
attempts a drop for every one of them, in order, regardless of earlier
failures; every enumerated table whose drop does not fail is removed from
the catalog even when other drops fail; an Uninitialized session is a
no-op. -/
theorem C8_reset_partial_failure_tolerant :
    clearDatabase none = (none, []) ∧
    (∀ d : ReflDb, (clearDatabase (some d)).2 =
      (getSchema (some d)).map SchemaTable.name) ∧
    (∀ d : ReflDb, ∀ t ∈ getSchema (some d), t.name ∉ d.stuck →
      ∀ d2 : ReflDb, (clearDatabase (some d)).1 = some d2 →
        t.name ∉ d2.catalog.map Prod.fst) := by
  refine ⟨rfl, ?_, ?_⟩
  · intro d
    unfold clearDatabase
    exact foldl_dropStep_attempts _ _
  · intro d t hmem hstuck d2 h2
    unfold clearDatabase at h2
    simp only [Option.some.injEq] at h2
    rw [← h2]
    exact foldl_dropStep_removes _ (d, []) t hmem hstuck

unseal List.merge List.mergeSort in
/-- C8 witness: with the drop of `b` failing, all three drops are still
attempted and `c` — enumerated after the failing `b` — is dropped. -/
theorem C8_reset_witness :
    (clearDatabase (some reflDbStuck)).2 =
      ["a".toList, "b".toList, "c".toList] ∧
    (⟨"c".toList, [⟨"id".toList, "INTEGER".toList, false, true⟩]⟩ :
      SchemaTable) ∈ getSchema (some reflDbStuck) ∧
    ∀ d2 ∈ (clearDatabase (some reflDbStuck)).1,
      ("c".toList ∉ d2.catalog.map Prod.fst) := by
  refine ⟨by decide, by decide, ?_⟩
  intro d2 h2
  refine C8_reset_partial_failure_tolerant.2.2 reflDbStuck
    ⟨"c".toList, [⟨"id".toList, "INTEGER".toList, false, true⟩]⟩
    (by decide) (by decide) d2 ?_
  simpa using h2

end QueryCraft

